import Mathlib

/-!
# Verification of the docapi document lifecycle service

A shallow embedding of the core of the `docapi` repository: the document
lifecycle service (`internal/service/document.go`) together with the
behaviour of its two collaborators, the object store
(`internal/storage`, MinIO-backed) and the metadata repository
(`internal/repository/postgres`).

Modelling decisions:
* Go strings are embedded as `List Char` (`GoStr`).
* Go `error` values are embedded as the inductive `GoError`; each wrapping
  constructor corresponds to one `fmt.Errorf` site in `document.go`, and
  `errorsIsNoRows` embeds `errors.Is(err, sql.ErrNoRows)` (`%w` wraps,
  `%v` does not).
* The combined external state is a `World`: the set of object-store keys
  holding a blob and the list of metadata rows.  Collaborator calls whose
  success is decided by the environment (network, database) take an
  explicit outcome argument; their effect on the `World` on success is
  taken from the collaborator sources (MinIO put/remove, SQL
  INSERT/SELECT/DELETE with single-statement atomicity).
* Each service operation returns its Go result, the final `World`, and the
  list of collaborator calls it issued, in order.
* Nondeterministic fresh values (`uuid.New().String()`, `time.Now().UTC()`)
  are passed as parameters (`genToken`, `newID`, `now`).
* Path helpers model the Unix behaviour of Go's `path/filepath` package
  (`Ext`, `Join`/`Clean` on the relative slash-paths that occur here;
  `ToSlash` is the identity on Unix).
-/

/-- A Go string, embedded as its list of characters. -/
abbrev GoStr := List Char

/-- Convert a Lean string literal to a `GoStr`. -/
def str (s : String) : GoStr := s.toList

/-- Loop of `goExt`: scans the path from its end; stops at a path
separator, returns the suffix from the last dot (embeds the loop of Go's
`filepath.Ext`).  `r` is the unscanned part, reversed; `acc` is the suffix
scanned so far, in order. -/
def goExtLoop : List Char → List Char → List Char
  | [], _ => []
  | c :: r, acc =>
    if c = '/' then []
    else if c = '.' then '.' :: acc
    else goExtLoop r (c :: acc)

/-- Go's `filepath.Ext` (Unix): the suffix beginning at the final dot in
the final slash-separated element; empty if there is no dot. -/
def goExt (p : GoStr) : GoStr := goExtLoop p.reverse []

/-- Loop of `splitSlash`, accumulating the current element reversed;
embeds splitting a path on the separator byte as done by Go's path
cleaning. -/
def splitSlashAux : List Char → List Char → List GoStr
  | [], acc => [acc.reverse]
  | c :: r, acc =>
    if c = '/' then acc.reverse :: splitSlashAux r []
    else splitSlashAux r (c :: acc)

/-- Split a slash-path into its elements. -/
def splitSlash (p : GoStr) : List GoStr := splitSlashAux p []

/-- The element loop of Go's `filepath.Clean` for relative (non-rooted)
paths: drops empty and `.` elements, resolves `..` against the output
stack, keeps leading `..` elements.  `acc` is the output so far, reversed. -/
def cleanElemsLoop : List GoStr → List GoStr → List GoStr
  | [], acc => acc.reverse
  | e :: rest, acc =>
    if e = [] ∨ e = str "." then cleanElemsLoop rest acc
    else if e = str ".." then
      match acc with
      | [] => cleanElemsLoop rest [str ".."]
      | a :: as =>
        if a = str ".." then cleanElemsLoop rest (str ".." :: a :: as)
        else cleanElemsLoop rest as
    else cleanElemsLoop rest (e :: acc)

/-- Join path elements with `/` (Go's `strings.Join` with the separator). -/
def joinSlash : List GoStr → GoStr
  | [] => []
  | [e] => e
  | e :: rest => e ++ '/' :: joinSlash rest

/-- Go's `filepath.Clean` on a relative (non-rooted) Unix path: split,
clean the elements, rejoin; the empty result is `"."`.  The only paths
cleaned in this development are `documents/<name>`, which are relative. -/
def cleanRel (p : GoStr) : GoStr :=
  let elems := cleanElemsLoop (splitSlash p) []
  if elems = [] then str "." else joinSlash elems

/-- Go's `filepath.ToSlash(filepath.Join("documents", name))` on Unix:
`Join` ignores empty elements and `Clean`s the slash-joined result;
`ToSlash` is the identity (the separator is already `/`).  This is the
storage-key derivation of `documentService.Upload`. -/
def joinDocuments (name : GoStr) : GoStr :=
  if name = [] then cleanRel (str "documents") else cleanRel (str "documents/" ++ name)

/-- Go `error` values reachable in the document service.  The sentinel
constructors embed `sql.ErrNoRows` and the `errors.New` values of
`service/document.go`; each `err...Failed` constructor embeds one
`fmt.Errorf` site (`errRollbackFailed` uses `%v` twice and therefore does
not wrap; the others use `%w`).  `external` stands for an arbitrary
collaborator error (driver, network), distinguished by a tag. -/
inductive GoError where
  | sqlErrNoRows
  | errIDRequired
  | errNotFound
  | errReaderNil
  | errUploadFailed (cause : GoError)
  | errMetadataPersistFailed (cause : GoError)
  | errRollbackFailed (dbErr delErr : GoError)
  | errStorageDeleteFailed (cause : GoError)
  | external (tag : Nat)
deriving DecidableEq, Repr

/-- `errors.Is(err, sql.ErrNoRows)`: true iff the error is the sentinel
or reaches it through `%w`-wrapping (`%v` in `errRollbackFailed` does not
wrap). -/
def errorsIsNoRows : GoError → Bool
  | .sqlErrNoRows => true
  | .errUploadFailed c => errorsIsNoRows c
  | .errMetadataPersistFailed c => errorsIsNoRows c
  | .errStorageDeleteFailed c => errorsIsNoRows c
  | _ => false

/-- `model.Document` (`internal/model/document.go`): id, filename,
storage path, size (int64), content type, creation time (UTC instant,
embedded as a number). -/
structure Document where
  id : GoStr
  filename : GoStr
  storagePath : GoStr
  size : Int
  contentType : GoStr
  createdAt : Nat
deriving DecidableEq, Repr

/-- `storage.ObjectInfo` as used by the service: key, size, etag and
content type reported by the object store after a put. -/
structure ObjectInfo where
  key : GoStr
  size : Int
  etag : GoStr
  contentType : GoStr
deriving DecidableEq, Repr

/-- `service.DocumentListResult`: the service-level DTO for paginated
documents. -/
structure DocumentListResult where
  items : List Document
  total : Int
deriving DecidableEq, Repr

/-- The combined external state: the keys under which the object store
holds a blob, and the metadata rows of the `documents` table. -/
structure World where
  blobs : List GoStr
  rows : List Document
deriving DecidableEq, Repr

/-- One collaborator call issued by the service, used to record call
traces. -/
inductive Call where
  | storePut (key : GoStr) (declaredSize : Int) (declaredContentType originalFilename : GoStr)
  | storeDelete (key : GoStr)
  | repoCreate (doc : Document)
  | repoFindByID (id : GoStr)
  | repoDelete (id : GoStr)
  | repoList (limit offset : Int)
deriving DecidableEq, Repr

/-- Environment-chosen outcome of `Storage.Put`: failure with some error,
or success with the backend-reported size, etag and content type (the
MinIO implementation reports `Key = key` and echoes the request's content
type; the oracle covers that as a special case). -/
inductive PutOutcome where
  | ok (size : Int) (etag contentType : GoStr)
  | fail (e : GoError)
deriving DecidableEq, Repr

/-- Environment-chosen outcome of a collaborator call that either
succeeds or fails with an error (store delete, repo create, repo delete,
repo list). -/
inductive CallOutcome where
  | ok
  | fail (e : GoError)
deriving DecidableEq, Repr

/-- Environment-chosen outcome of `repo.FindByID`: answer honestly from
the table, or fail with an injected (driver) error. -/
inductive FindOutcome where
  | fromTable
  | fail (e : GoError)
deriving DecidableEq, Repr

/-- Add a key to the object store's key set (a put overwrites, so the key
set gains the key if absent). -/
def insertBlob (key : GoStr) (blobs : List GoStr) : List GoStr :=
  if key ∈ blobs then blobs else key :: blobs

/-- `Storage.Put` (`internal/storage`, MinIO `PutObject`): on success the
blob is committed under `key` and the reported `ObjectInfo` carries that
key; on failure nothing is stored. -/
def storagePut (w : World) (key : GoStr) (outcome : PutOutcome) :
    Except GoError ObjectInfo × World :=
  match outcome with
  | .fail e => (.error e, w)
  | .ok size etag ct =>
    (.ok { key := key, size := size, etag := etag, contentType := ct },
     { w with blobs := insertBlob key w.blobs })

/-- `Storage.Delete` (MinIO `RemoveObject`): on success the object at
`key` is gone (deleting an absent key also succeeds); on failure the
store is unchanged. -/
def storageDelete (w : World) (key : GoStr) (outcome : CallOutcome) :
    Except GoError Unit × World :=
  match outcome with
  | .fail e => (.error e, w)
  | .ok => (.ok (), { w with blobs := w.blobs.filter (fun k => k != key) })

/-- `DocumentPostgres.Create`: a single-row INSERT .. RETURNING; on
success the row is appended and echoed back, on failure no row is
inserted. -/
def repoCreate (w : World) (doc : Document) (outcome : CallOutcome) :
    Except GoError Document × World :=
  match outcome with
  | .fail e => (.error e, w)
  | .ok => (.ok doc, { w with rows := w.rows ++ [doc] })

/-- `DocumentPostgres.FindByID`: SELECT .. WHERE id = $1; returns the
matching row, `sql.ErrNoRows` if none matches, or an injected driver
error. -/
def repoFindByID (w : World) (id : GoStr) (outcome : FindOutcome) :
    Except GoError Document × World :=
  match outcome with
  | .fail e => (.error e, w)
  | .fromTable =>
    match w.rows.find? (fun d => d.id == id) with
    | some d => (.ok d, w)
    | none => (.error .sqlErrNoRows, w)

/-- `DocumentPostgres.Delete`: DELETE FROM documents WHERE id = $1.  On
exec success it returns nil regardless of how many rows were affected
(the code discards `RowsAffected`), so deleting an absent row succeeds;
on exec failure the table is unchanged. -/
def repoDelete (w : World) (id : GoStr) (outcome : CallOutcome) :
    Except GoError Unit × World :=
  match outcome with
  | .fail e => (.error e, w)
  | .ok => (.ok (), { w with rows := w.rows.filter (fun d => d.id != id) })

/-- Comparison used by `ORDER BY created_at DESC, id DESC`: `a` comes
before `b`. -/
def docBefore (a b : Document) : Bool :=
  if a.createdAt = b.createdAt then !(a.id < b.id : Bool) else decide (b.createdAt < a.createdAt)

/-- Insert into a list sorted by `docBefore`. -/
def orderedInsert (x : Document) : List Document → List Document
  | [] => [x]
  | y :: ys => if docBefore x y then x :: y :: ys else y :: orderedInsert x ys

/-- Sort rows as `ORDER BY created_at DESC, id DESC` does. -/
def sortDocs : List Document → List Document
  | [] => []
  | x :: xs => orderedInsert x (sortDocs xs)

/-- `DocumentPostgres.List`: counts all rows, then fetches the ordered
page with LIMIT/OFFSET.  Only called by the service with `limit ≥ 1` and
`offset ≥ 0`. -/
def repoList (w : World) (pqLimit pqOffset : Int) (outcome : CallOutcome) :
    Except GoError (List Document × Int) × World :=
  match outcome with
  | .fail e => (.error e, w)
  | .ok =>
    (.ok (((sortDocs w.rows).drop pqOffset.toNat).take pqLimit.toNat,
      (w.rows.length : Int)), w)

/-- Outcomes of the collaborator calls an `Upload` may issue. -/
structure UploadEnv where
  putOutcome : PutOutcome
  createOutcome : CallOutcome
  rollbackOutcome : CallOutcome
deriving DecidableEq, Repr

/-- Outcomes of the collaborator calls a `Delete` may issue. -/
structure DeleteEnv where
  findOutcome : FindOutcome
  storeDeleteOutcome : CallOutcome
  repoDeleteOutcome : CallOutcome
deriving DecidableEq, Repr

namespace documentService

/-- `documentService.Upload` (`internal/service/document.go:58-97`).
Validates the reader, derives `key = Join("documents", token+ext)`, puts
the blob, builds the `Document` from the reported `ObjectInfo` and a
second fresh id, persists it, and on persistence failure attempts the
compensating blob delete, distinguishing rollback success
(`errMetadataPersistFailed`) from rollback failure (`errRollbackFailed`).
`readerIsNil` embeds `r == nil`; `genToken`/`newID` embed the two
`uuid.New().String()` calls; `now` embeds `time.Now().UTC()`. -/
def Upload (w : World) (readerIsNil : Bool) (originalFilename contentType : GoStr)
    (size : Int) (genToken newID : GoStr) (now : Nat) (env : UploadEnv) :
    Except GoError Document × World × List Call :=
  if readerIsNil then (.error .errReaderNil, w, [])
  else
    let ext := goExt originalFilename
    let genName := genToken ++ ext
    let key := joinDocuments genName
    let putCall := Call.storePut key size contentType originalFilename
    match storagePut w key env.putOutcome with
    | (.error e, w1) => (.error (.errUploadFailed e), w1, [putCall])
    | (.ok objInfo, w1) =>
      let doc : Document :=
        { id := newID, filename := genName, storagePath := objInfo.key,
          size := objInfo.size, contentType := objInfo.contentType, createdAt := now }
      match repoCreate w1 doc env.createOutcome with
      | (.error e, w2) =>
        match storageDelete w2 key env.rollbackOutcome with
        | (.error delErr, w3) =>
          (.error (.errRollbackFailed e delErr), w3,
            [putCall, .repoCreate doc, .storeDelete key])
        | (.ok _, w3) =>
          (.error (.errMetadataPersistFailed e), w3,
            [putCall, .repoCreate doc, .storeDelete key])
      | (.ok stored, w2) => (.ok stored, w2, [putCall, .repoCreate doc])

/-- `documentService.List` (`internal/service/document.go:100-113`).
Normalizes `limit ≤ 0` to 10 and `offset < 0` to 0, delegates to the
repository's paginated query, and copies its result into the DTO;
repository errors are returned unchanged. -/
def list (w : World) (limit offset : Int) (outcome : CallOutcome) :
    Except GoError DocumentListResult × World × List Call :=
  let limit := if limit ≤ 0 then 10 else limit
  let offset := if offset < 0 then 0 else offset
  match repoList w limit offset outcome with
  | (.error e, w1) => (.error e, w1, [.repoList limit offset])
  | (.ok res, w1) =>
    (.ok { items := res.1, total := res.2 }, w1, [.repoList limit offset])

/-- `documentService.Get` (`internal/service/document.go:116-128`).
Requires a non-empty id, looks the row up, translates
`errors.Is(err, sql.ErrNoRows)` to `errNotFound`, and returns any other
repository error unchanged. -/
def Get (w : World) (id : GoStr) (findOutcome : FindOutcome) :
    Except GoError Document × World × List Call :=
  if id = [] then (.error .errIDRequired, w, [])
  else
    match repoFindByID w id findOutcome with
    | (.error e, w1) =>
      if errorsIsNoRows e then (.error .errNotFound, w1, [.repoFindByID id])
      else (.error e, w1, [.repoFindByID id])
    | (.ok doc, w1) => (.ok doc, w1, [.repoFindByID id])

/-- `documentService.Delete` (`internal/service/document.go:131-149`).
Requires a non-empty id, finds the row (translating the no-rows sentinel
to `errNotFound`), deletes the blob at the recorded storage path first
(failure surfaces as `errStorageDeleteFailed` and leaves the row intact),
and only then deletes the metadata row, returning the repository's error
unchanged if that last step fails. -/
def Delete (w : World) (id : GoStr) (env : DeleteEnv) :
    Except GoError Unit × World × List Call :=
  if id = [] then (.error .errIDRequired, w, [])
  else
    match repoFindByID w id env.findOutcome with
    | (.error e, w1) =>
      if errorsIsNoRows e then (.error .errNotFound, w1, [.repoFindByID id])
      else (.error e, w1, [.repoFindByID id])
    | (.ok doc, w1) =>
      match storageDelete w1 doc.storagePath env.storeDeleteOutcome with
      | (.error e, w2) =>
        (.error (.errStorageDeleteFailed e), w2,
          [.repoFindByID id, .storeDelete doc.storagePath])
      | (.ok _, w2) =>
        match repoDelete w2 id env.repoDeleteOutcome with
        | (.error e, w3) =>
          (.error e, w3,
            [.repoFindByID id, .storeDelete doc.storagePath, .repoDelete id])
        | (.ok _, w3) =>
          (.ok (), w3,
            [.repoFindByID id, .storeDelete doc.storagePath, .repoDelete id])

end documentService

/-- One state-changing service operation, for reasoning about sequences
of uploads and deletes. -/
inductive Op where
  | upload (readerIsNil : Bool) (originalFilename contentType : GoStr) (size : Int)
      (genToken newID : GoStr) (now : Nat) (env : UploadEnv)
  | delete (id : GoStr) (env : DeleteEnv)

/-- The world after one service operation. -/
def stepW (w : World) : Op → World
  | .upload rn fn ct sz tok nid now env =>
    (documentService.Upload w rn fn ct sz tok nid now env).2.1
  | .delete id env => (documentService.Delete w id env).2.1

/-- The world after a sequence of service operations. -/
def execOps : World → List Op → World
  | w, [] => w
  | w, op :: ops => execOps (stepW w op) ops

/-- Freshness of the generated storage key of an upload: the key a fresh
122-bit-random token produces collides with no existing blob key and no
recorded storage path (the spec treats the collision probability as
zero). -/
def OpFresh (w : World) : Op → Prop
  | .upload _ fn _ _ tok _ _ _ =>
    joinDocuments (tok ++ goExt fn) ∉ w.blobs ∧
      ∀ d ∈ w.rows, d.storagePath ≠ joinDocuments (tok ++ goExt fn)
  | .delete _ _ => True

/-- Every operation of the sequence has a fresh key at the world it runs
in. -/
def FreshAlong (w : World) : List Op → Prop
  | [] => True
  | op :: ops => OpFresh w op ∧ FreshAlong (stepW w op) ops

/-- The operation is not a Delete whose blob deletion succeeds while its
metadata deletion fails (the one step that strands a metadata row). -/
def NoDanglingDelete : Op → Prop
  | .upload .. => True
  | .delete _ env => env.storeDeleteOutcome = .ok → env.repoDeleteOutcome = .ok

/-- Every metadata row's storage path has a blob in the object store. -/
def RowsBacked (w : World) : Prop := ∀ d ∈ w.rows, d.storagePath ∈ w.blobs

/-- Metadata rows record pairwise distinct storage paths. -/
def PathsDistinct (w : World) : Prop :=
  w.rows.Pairwise (fun a b => a.storagePath ≠ b.storagePath)

/-- The cross-store consistency invariant. -/
def Consistent (w : World) : Prop := RowsBacked w ∧ PathsDistinct w

/-! ## Helper lemmas -/

theorem find?_append_none {α : Type} (p : α → Bool) (l1 l2 : List α)
    (h : ∀ x ∈ l1, ¬ p x) : (l1 ++ l2).find? p = l2.find? p := by
  induction l1 with
  | nil => rfl
  | cons a l ih =>
    have ha : ¬ p a := h a (by simp)
    rw [List.cons_append, List.find?_cons_of_neg _ ha]
    exact ih fun x hx => h x (by simp [hx])

theorem mem_insertBlob {a key : GoStr} {blobs : List GoStr} :
    a ∈ insertBlob key blobs ↔ a = key ∨ a ∈ blobs := by
  unfold insertBlob
  by_cases h : key ∈ blobs
  · simp only [if_pos h]
    constructor
    · exact Or.inr
    · rintro (rfl | ha)
      · exact h
      · exact ha
  · simp [if_neg h]

theorem mem_filter_ne {a key : GoStr} {blobs : List GoStr} :
    a ∈ blobs.filter (fun k => k != key) ↔ a ∈ blobs ∧ a ≠ key := by
  simp [List.mem_filter]

theorem row_mem_filter_ne {d : Document} {id : GoStr} {rows : List Document} :
    d ∈ rows.filter (fun x => x.id != id) ↔ d ∈ rows ∧ d.id ≠ id := by
  simp [List.mem_filter]

/-! ## C9: nil-reader validation happens before any collaborator call -/

/-- C9: `Upload` with a nil content stream fails with `ErrReaderNil`
immediately: the world is unchanged and the call trace is empty, so no
object-store or repository call was made. -/
theorem upload_nil_reader_rejected (w : World) (fn ct : GoStr) (sz : Int)
    (tok nid : GoStr) (now : Nat) (env : UploadEnv) :
    documentService.Upload w true fn ct sz tok nid now env
      = (.error .errReaderNil, w, []) := rfl

/-! ## C2: upload compensation branch -/

/-- C2: when the repository create fails after a successful put, `Upload`
issues the compensating store delete under the very key it put; if that
delete succeeds the result is `errMetadataPersistFailed` wrapping the
persistence error, and if it fails the result is `errRollbackFailed`
carrying both the persistence error and the deletion error. -/
theorem upload_compensation_errors (w : World) (fn ct : GoStr) (sz : Int)
    (tok nid : GoStr) (now : Nat) (rs : Int) (retag rct : GoStr) (dbErr : GoError)
    (ro : CallOutcome) :
    ((documentService.Upload w false fn ct sz tok nid now
        ⟨.ok rs retag rct, .fail dbErr, ro⟩).2.2
      = [Call.storePut (joinDocuments (tok ++ goExt fn)) sz ct fn,
         Call.repoCreate ⟨nid, tok ++ goExt fn, joinDocuments (tok ++ goExt fn), rs, rct, now⟩,
         Call.storeDelete (joinDocuments (tok ++ goExt fn))]) ∧
    (ro = .ok →
      (documentService.Upload w false fn ct sz tok nid now
        ⟨.ok rs retag rct, .fail dbErr, ro⟩).1
        = .error (.errMetadataPersistFailed dbErr)) ∧
    (∀ de, ro = .fail de →
      (documentService.Upload w false fn ct sz tok nid now
        ⟨.ok rs retag rct, .fail dbErr, ro⟩).1
        = .error (.errRollbackFailed dbErr de)) := by
  cases ro <;>
    simp [documentService.Upload, storagePut, repoCreate, storageDelete]

/-- Witness for C2 at concrete inputs: both compensation outcomes,
instantiated. -/
theorem upload_compensation_errors_witness :
    ((documentService.Upload ⟨[], []⟩ false (str "a.txt") (str "text/plain") 5
        (str "tok") (str "id") 7 ⟨.ok 5 (str "e") (str "text/plain"), .fail (.external 3), .ok⟩).1
      = .error (.errMetadataPersistFailed (.external 3))) ∧
    ((documentService.Upload ⟨[], []⟩ false (str "a.txt") (str "text/plain") 5
        (str "tok") (str "id") 7
        ⟨.ok 5 (str "e") (str "text/plain"), .fail (.external 3), .fail (.external 4)⟩).1
      = .error (.errRollbackFailed (.external 3) (.external 4))) := by
  constructor
  · exact (upload_compensation_errors ⟨[], []⟩ (str "a.txt") (str "text/plain") 5
      (str "tok") (str "id") 7 5 (str "e") (str "text/plain") (.external 3) .ok).2.1 rfl
  · exact (upload_compensation_errors ⟨[], []⟩ (str "a.txt") (str "text/plain") 5
      (str "tok") (str "id") 7 5 (str "e") (str "text/plain") (.external 3)
      (.fail (.external 4))).2.2 (.external 4) rfl

/-! ## C7: pagination normalization -/

/-- C7: `list` replaces any `limit ≤ 0` by the default 10 and any
negative `offset` by 0 before delegating (so `list 0 (-5)` is literally
`list 10 0`), and puts no upper bound on a positive limit: the repository
receives exactly the caller's `limit` and `offset` when they are already
in range. -/
theorem list_normalizes_pagination (w : World) (o : CallOutcome)
    (limit offset l2 o2 : Int) (hl : limit ≤ 0) (ho : offset < 0)
    (hl2 : 0 < l2) (ho2 : 0 ≤ o2) :
    documentService.list w limit offset o = documentService.list w 10 0 o ∧
    (documentService.list w l2 o2 o).2.2 = [Call.repoList l2 o2] := by
  have h1 : ¬ l2 ≤ 0 := by omega
  have h2 : ¬ o2 < 0 := by omega
  constructor
  · simp [documentService.list, if_pos hl, if_pos ho]
  · cases o <;> simp [documentService.list, if_neg h1, if_neg h2, repoList]

/-- Witness for C7: `list 0 (-5)` equals `list 10 0`, and a limit of 25
is passed through unclamped. -/
theorem list_normalizes_pagination_witness :
    documentService.list ⟨[], []⟩ 0 (-5) .ok = documentService.list ⟨[], []⟩ 10 0 .ok ∧
    (documentService.list ⟨[], []⟩ 25 3 .ok).2.2 = [Call.repoList 25 3] := by
  have h := list_normalizes_pagination ⟨[], []⟩ .ok 0 (-5) 25 3
    (by decide) (by decide) (by decide) (by decide)
  exact h

/-! ## C5: id validation and not-found translation -/

/-- C5: `Get` and `Delete` reject an empty id with `errIDRequired` before
issuing any collaborator call (empty trace, world untouched); when the
repository has no matching row they both answer with the distinct
`errNotFound` instead of the storage-level `sqlErrNoRows` sentinel; and
any repository failure that is not the no-rows condition is returned
unchanged. -/
theorem get_delete_validation_and_not_found (w : World) (id : GoStr)
    (fo : FindOutcome) (denv : DeleteEnv) (sdo rdo : CallOutcome) (e : GoError) :
    (documentService.Get w [] fo = (.error .errIDRequired, w, [])) ∧
    (documentService.Delete w [] denv = (.error .errIDRequired, w, [])) ∧
    (id ≠ [] → w.rows.find? (fun d => d.id == id) = none →
      (documentService.Get w id .fromTable).1 = .error .errNotFound ∧
      (documentService.Delete w id ⟨.fromTable, sdo, rdo⟩).1 = .error .errNotFound) ∧
    (id ≠ [] → errorsIsNoRows e = false →
      (documentService.Get w id (.fail e)).1 = .error e ∧
      (documentService.Delete w id ⟨.fail e, sdo, rdo⟩).1 = .error e) := by
  refine ⟨rfl, rfl, ?_, ?_⟩
  · intro hid hfind
    constructor <;>
      simp [documentService.Get, documentService.Delete, repoFindByID, hfind,
        if_neg hid, errorsIsNoRows]
  · intro hid he
    constructor <;>
      simp [documentService.Get, documentService.Delete, repoFindByID,
        if_neg hid, he]

/-- Witness for C5: concrete empty-table lookups and a concrete opaque
driver error. -/
theorem get_delete_validation_and_not_found_witness :
    (documentService.Get ⟨[], []⟩ (str "missing") .fromTable).1 = .error .errNotFound ∧
    (documentService.Delete ⟨[], []⟩ (str "missing") ⟨.fromTable, .ok, .ok⟩).1
      = .error .errNotFound ∧
    (documentService.Get ⟨[], []⟩ (str "x") (.fail (.external 9))).1
      = .error (.external 9) := by
  have h := get_delete_validation_and_not_found ⟨[], []⟩ (str "missing")
    .fromTable ⟨.fromTable, .ok, .ok⟩ .ok .ok (.external 9)
  have h2 := get_delete_validation_and_not_found ⟨[], []⟩ (str "x")
    .fromTable ⟨.fromTable, .ok, .ok⟩ .ok .ok (.external 9)
  exact ⟨(h.2.2.1 (by decide) (by decide)).1, (h.2.2.1 (by decide) (by decide)).2,
    (h2.2.2.2 (by decide) (by decide)).1⟩

/-! ## C10: delete with failing metadata delete strands the row -/

/-- C10: when the blob deletion succeeds but the repository delete fails,
`Delete` returns the repository's error unchanged (no classification, no
compensation), the metadata rows are untouched, and the found document's
row now points at a key whose blob is gone. -/
theorem delete_repo_failure_propagates (w : World) (id : GoStr) (doc : Document)
    (e : GoError) (hid : id ≠ [])
    (hfind : w.rows.find? (fun d => d.id == id) = some doc) :
    (documentService.Delete w id ⟨.fromTable, .ok, .fail e⟩).1 = .error e ∧
    ((documentService.Delete w id ⟨.fromTable, .ok, .fail e⟩).2.1).rows = w.rows ∧
    doc ∈ ((documentService.Delete w id ⟨.fromTable, .ok, .fail e⟩).2.1).rows ∧
    doc.storagePath ∉ ((documentService.Delete w id ⟨.fromTable, .ok, .fail e⟩).2.1).blobs := by
  have hmem : doc ∈ w.rows := List.mem_of_find?_eq_some hfind
  refine ⟨?_, ?_, ?_, ?_⟩
  · simp [documentService.Delete, repoFindByID, storageDelete, repoDelete,
      if_neg hid, hfind]
  · simp [documentService.Delete, repoFindByID, storageDelete, repoDelete,
      if_neg hid, hfind]
  · simpa [documentService.Delete, repoFindByID, storageDelete, repoDelete,
      if_neg hid, hfind] using hmem
  · simp [documentService.Delete, repoFindByID, storageDelete, repoDelete,
      if_neg hid, hfind, List.mem_filter]

/-- Witness for C10 at a one-document world. -/
theorem delete_repo_failure_propagates_witness :
    (documentService.Delete
      ⟨[str "documents/k.txt"], [⟨str "id1", str "k.txt", str "documents/k.txt", 5, str "t", 0⟩]⟩
      (str "id1") ⟨.fromTable, .ok, .fail (.external 7)⟩).1 = .error (.external 7) :=
  (delete_repo_failure_propagates
    ⟨[str "documents/k.txt"], [⟨str "id1", str "k.txt", str "documents/k.txt", 5, str "t", 0⟩]⟩
    (str "id1") ⟨str "id1", str "k.txt", str "documents/k.txt", 5, str "t", 0⟩
    (.external 7) (by decide) (by decide)).1

/-! ## C3: delete ordering and storage-delete failure handling -/

/-- C3: `Delete` calls the object-store delete on the found document's
recorded storage path before the repository delete; when the object-store
delete fails, the result is `errStorageDeleteFailed` wrapping the cause,
no repository delete is ever issued, the world (in particular the
metadata row) is unchanged, and the document is still retrievable via
`Get`. -/
theorem delete_storage_failure_keeps_row (w : World) (id : GoStr) (doc : Document)
    (e : GoError) (ro : CallOutcome) (hid : id ≠ [])
    (hfind : w.rows.find? (fun d => d.id == id) = some doc) :
    ((documentService.Delete w id ⟨.fromTable, .ok, ro⟩).2.2
       = [.repoFindByID id, .storeDelete doc.storagePath, .repoDelete id]) ∧
    (documentService.Delete w id ⟨.fromTable, .fail e, ro⟩
       = (.error (.errStorageDeleteFailed e), w,
          [.repoFindByID id, .storeDelete doc.storagePath])) ∧
    (∀ i, Call.repoDelete i ∉ (documentService.Delete w id ⟨.fromTable, .fail e, ro⟩).2.2) ∧
    ((documentService.Get w id .fromTable).1 = .ok doc) := by
  refine ⟨?_, ?_, ?_, ?_⟩
  · cases ro <;>
      simp [documentService.Delete, repoFindByID, storageDelete, repoDelete,
        if_neg hid, hfind]
  · simp [documentService.Delete, repoFindByID, storageDelete, if_neg hid, hfind]
  · intro i
    simp [documentService.Delete, repoFindByID, storageDelete, if_neg hid, hfind]
  · simp [documentService.Get, repoFindByID, if_neg hid, hfind]

/-- Witness for C3 at a one-document world. -/
theorem delete_storage_failure_keeps_row_witness :
    (documentService.Delete
      ⟨[str "documents/k.txt"], [⟨str "id1", str "k.txt", str "documents/k.txt", 5, str "t", 0⟩]⟩
      (str "id1") ⟨.fromTable, .fail (.external 2), .ok⟩)
      = (.error (.errStorageDeleteFailed (.external 2)),
         ⟨[str "documents/k.txt"], [⟨str "id1", str "k.txt", str "documents/k.txt", 5, str "t", 0⟩]⟩,
         [.repoFindByID (str "id1"), .storeDelete (str "documents/k.txt")]) :=
  (delete_storage_failure_keeps_row
    ⟨[str "documents/k.txt"], [⟨str "id1", str "k.txt", str "documents/k.txt", 5, str "t", 0⟩]⟩
    (str "id1") ⟨str "id1", str "k.txt", str "documents/k.txt", 5, str "t", 0⟩
    (.external 2) .ok (by decide) (by decide)).2.1

/-! ## C6: idempotent repository delete / double service delete -/

/-- C6: the repository's delete returns success whenever its statement
executes, even when zero rows are affected (the row is already absent);
consequently a first service `Delete` on an existing id succeeds without
surfacing any absent-row error, and a second `Delete` of the same id
answers `errNotFound`. -/
theorem delete_idempotent (w : World) (id : GoStr) (doc : Document) (hid : id ≠ [])
    (hfind : w.rows.find? (fun d => d.id == id) = some doc) :
    (∀ (w2 : World) (i : GoStr), (repoDelete w2 i .ok).1 = .ok ()) ∧
    ((documentService.Delete w id ⟨.fromTable, .ok, .ok⟩).1 = .ok ()) ∧
    ((documentService.Delete ((documentService.Delete w id ⟨.fromTable, .ok, .ok⟩).2.1) id
        ⟨.fromTable, .ok, .ok⟩).1 = .error .errNotFound) := by
  refine ⟨fun w2 i => rfl, ?_, ?_⟩
  · simp [documentService.Delete, repoFindByID, storageDelete, repoDelete,
      if_neg hid, hfind]
  · have hnone :
        (w.rows.filter (fun d => d.id != id)).find? (fun d => d.id == id) = none := by
      rw [List.find?_eq_none]
      intro d hd h
      exact absurd (beq_iff_eq.mp h) (row_mem_filter_ne.mp hd).2
    simp [documentService.Delete, repoFindByID, storageDelete, repoDelete,
      if_neg hid, hfind, hnone, errorsIsNoRows]

/-- Witness for C6 at a one-document world. -/
theorem delete_idempotent_witness :
    ((documentService.Delete
        ⟨[str "documents/k.txt"], [⟨str "id1", str "k.txt", str "documents/k.txt", 5, str "t", 0⟩]⟩
        (str "id1") ⟨.fromTable, .ok, .ok⟩).1 = .ok ()) ∧
    ((documentService.Delete
        ((documentService.Delete
          ⟨[str "documents/k.txt"], [⟨str "id1", str "k.txt", str "documents/k.txt", 5, str "t", 0⟩]⟩
          (str "id1") ⟨.fromTable, .ok, .ok⟩).2.1) (str "id1")
        ⟨.fromTable, .ok, .ok⟩).1 = .error .errNotFound) :=
  ⟨(delete_idempotent
      ⟨[str "documents/k.txt"], [⟨str "id1", str "k.txt", str "documents/k.txt", 5, str "t", 0⟩]⟩
      (str "id1") ⟨str "id1", str "k.txt", str "documents/k.txt", 5, str "t", 0⟩
      (by decide) (by decide)).2.1,
   (delete_idempotent
      ⟨[str "documents/k.txt"], [⟨str "id1", str "k.txt", str "documents/k.txt", 5, str "t", 0⟩]⟩
      (str "id1") ⟨str "id1", str "k.txt", str "documents/k.txt", 5, str "t", 0⟩
      (by decide) (by decide)).2.2⟩

/-! ## C4: upload round-trip uses the store-reported values -/

/-- C4: a successful `Upload` persists a `Document` built from the object
store's reported key, size and content type (whatever the oracle reports,
not the caller-declared `ct`/`sz`), the freshly generated `newID`
(independent of the filename token) and the current time `now`; and `Get`
on the resulting world under that id returns exactly that document. -/
theorem upload_roundtrip (w : World) (fn ct : GoStr) (sz : Int) (tok nid : GoStr)
    (now : Nat) (rs : Int) (retag rct : GoStr)
    (hnid : nid ≠ []) (hfresh : ∀ d ∈ w.rows, d.id ≠ nid) :
    ((documentService.Upload w false fn ct sz tok nid now ⟨.ok rs retag rct, .ok, .ok⟩).1
      = .ok ⟨nid, tok ++ goExt fn, joinDocuments (tok ++ goExt fn), rs, rct, now⟩) ∧
    ((documentService.Get
        ((documentService.Upload w false fn ct sz tok nid now ⟨.ok rs retag rct, .ok, .ok⟩).2.1)
        nid .fromTable).1
      = .ok ⟨nid, tok ++ goExt fn, joinDocuments (tok ++ goExt fn), rs, rct, now⟩) := by
  have hworld :
      (documentService.Upload w false fn ct sz tok nid now ⟨.ok rs retag rct, .ok, .ok⟩).2.1
        = ⟨insertBlob (joinDocuments (tok ++ goExt fn)) w.blobs,
           w.rows ++ [⟨nid, tok ++ goExt fn, joinDocuments (tok ++ goExt fn), rs, rct, now⟩]⟩ := by
    simp [documentService.Upload, storagePut, repoCreate]
  have hfind :
      (w.rows ++ [(⟨nid, tok ++ goExt fn, joinDocuments (tok ++ goExt fn), rs, rct, now⟩ : Document)]).find?
          (fun d => d.id == nid)
        = some ⟨nid, tok ++ goExt fn, joinDocuments (tok ++ goExt fn), rs, rct, now⟩ := by
    rw [find?_append_none _ _ _ (fun d hd h => hfresh d hd (beq_iff_eq.mp h))]
    simp
  refine ⟨?_, ?_⟩
  · simp [documentService.Upload, storagePut, repoCreate]
  · rw [hworld]
    simp [documentService.Get, repoFindByID, if_neg hnid, hfind]

/-- Witness for C4: a 5-byte `a.txt` upload into an empty world, with the
store reporting size 5 and content type `text/plain`. -/
theorem upload_roundtrip_witness :
    (documentService.Get
        ((documentService.Upload ⟨[], []⟩ false (str "a.txt") (str "text/plain") 5
          (str "tok-1") (str "id-1") 42 ⟨.ok 5 (str "etag") (str "text/plain"), .ok, .ok⟩).2.1)
        (str "id-1") .fromTable).1
      = .ok ⟨str "id-1", str "tok-1" ++ goExt (str "a.txt"),
             joinDocuments (str "tok-1" ++ goExt (str "a.txt")), 5, str "text/plain", 42⟩ :=
  (upload_roundtrip ⟨[], []⟩ (str "a.txt") (str "text/plain") 5 (str "tok-1") (str "id-1")
    42 5 (str "etag") (str "text/plain") (by decide) (by decide)).2

/-! ## C8: storage-key and filename derivation -/

theorem goExtLoop_no_slash (r : List Char) :
    ∀ acc : List Char, '/' ∉ acc → '/' ∉ goExtLoop r acc := by
  induction r with
  | nil => intro acc _; simp [goExtLoop]
  | cons c rest ih =>
    intro acc h
    by_cases hc : c = '/'
    · simp [goExtLoop, hc]
    · by_cases hd : c = '.'
      · simp only [goExtLoop, if_neg hc, if_pos hd]
        intro hmem
        rcases List.mem_cons.mp hmem with h1 | h1
        · exact absurd h1 (by decide)
        · exact h h1
      · simp only [goExtLoop, if_neg hc, if_neg hd]
        refine ih (c :: acc) ?_
        intro hmem
        rcases List.mem_cons.mp hmem with h1 | h1
        · exact hc h1.symm
        · exact h h1

theorem goExt_no_slash (p : GoStr) : '/' ∉ goExt p :=
  goExtLoop_no_slash p.reverse [] (by simp)

theorem splitSlashAux_no_slash (l : List Char) :
    ∀ acc : List Char, '/' ∉ l → splitSlashAux l acc = [acc.reverse ++ l] := by
  induction l with
  | nil => intro acc _; simp [splitSlashAux]
  | cons c rest ih =>
    intro acc h
    have hc : ¬ c = '/' := fun hcc => h (by simp [hcc])
    rw [splitSlashAux, if_neg hc,
      ih (c :: acc) (fun hm => h (List.mem_cons_of_mem _ hm))]
    simp

theorem splitSlash_documents (g : GoStr) (hg : '/' ∉ g) :
    splitSlash (str "documents/" ++ g) = [str "documents", g] := by
  have h1 : splitSlash (str "documents/" ++ g) = str "documents" :: splitSlashAux g [] := rfl
  rw [h1, splitSlashAux_no_slash g [] hg]
  rfl

theorem cleanElems_documents (g : GoStr) (h1 : g ≠ []) (h3 : g ≠ str ".")
    (h4 : g ≠ str "..") :
    cleanElemsLoop [str "documents", g] [] = [str "documents", g] := by
  have d1 : ¬(str "documents" = [] ∨ str "documents" = str ".") := by decide
  have d2 : str "documents" ≠ str ".." := by decide
  rw [cleanElemsLoop, if_neg d1, if_neg d2,
    cleanElemsLoop, if_neg (not_or.mpr ⟨h1, h3⟩), if_neg h4]
  rfl

/-- For a name with no separator, no `.`/`..` element and at least one
character, `filepath.Join("documents", name)` is literally
`documents/<name>`. -/
theorem joinDocuments_plain (g : GoStr) (h1 : g ≠ []) (h2 : '/' ∉ g)
    (h3 : g ≠ str ".") (h4 : g ≠ str "..") :
    joinDocuments g = str "documents/" ++ g := by
  unfold joinDocuments cleanRel
  rw [if_neg h1, splitSlash_documents g h2, cleanElems_documents g h1 h3 h4,
    if_neg (by simp : ¬([str "documents", g] : List GoStr) = [])]
  rfl

/-- C8: with a UUID-shaped token (non-empty, containing no `/` and no
`.`, as `uuid.New().String()` always is), `Upload` derives the storage
key `documents/<token><Ext(originalFilename)>` and stores the filename
`<token><Ext(originalFilename)>`; the successful result carries exactly
these (so uploading `a.txt` yields a filename ending in `.txt`, and an
extension-less name yields an empty extension). -/
theorem upload_key_and_filename (w : World) (fn ct : GoStr) (sz : Int)
    (tok nid : GoStr) (now : Nat) (rs : Int) (retag rct : GoStr) (ro : CallOutcome)
    (h1 : tok ≠ []) (h2 : '/' ∉ tok) (h3 : '.' ∉ tok) :
    joinDocuments (tok ++ goExt fn) = str "documents/" ++ (tok ++ goExt fn) ∧
    ((documentService.Upload w false fn ct sz tok nid now ⟨.ok rs retag rct, .ok, ro⟩).1
      = .ok ⟨nid, tok ++ goExt fn, str "documents/" ++ (tok ++ goExt fn), rs, rct, now⟩) := by
  have hne : tok ++ goExt fn ≠ [] := fun h => h1 (List.append_eq_nil.mp h).1
  have hns : '/' ∉ tok ++ goExt fn := by
    intro hm
    rcases List.mem_append.mp hm with hm | hm
    · exact h2 hm
    · exact goExt_no_slash fn hm
  have hhead : ∀ s : GoStr, tok ++ goExt fn = s → s ≠ [] → s.head? = some '.' → False := by
    intro s hs hsne hshead
    cases tok with
    | nil => exact h1 rfl
    | cons t ts =>
      rw [← hs] at hshead
      simp only [List.cons_append, List.head?_cons] at hshead
      injection hshead with ht
      apply h3
      rw [← ht]
      exact List.mem_cons_self t ts
  have hdot : tok ++ goExt fn ≠ str "." :=
    fun h => hhead (str ".") h (by decide) (by decide)
  have hdots : tok ++ goExt fn ≠ str ".." :=
    fun h => hhead (str "..") h (by decide) (by decide)
  have hjoin := joinDocuments_plain (tok ++ goExt fn) hne hns hdot hdots
  refine ⟨hjoin, ?_⟩
  simp [documentService.Upload, storagePut, repoCreate, hjoin]

/-- Witness for C8: a concrete UUID token and `a.txt`; the resulting
filename is the token followed by `.txt`. -/
theorem upload_key_and_filename_witness :
    (documentService.Upload ⟨[], []⟩ false (str "a.txt") (str "text/plain") 5
        (str "123e4567-e89b-12d3-a456-426614174000") (str "id-1") 42
        ⟨.ok 5 (str "etag") (str "text/plain"), .ok, .ok⟩).1
      = .ok ⟨str "id-1", str "123e4567-e89b-12d3-a456-426614174000.txt",
             str "documents/123e4567-e89b-12d3-a456-426614174000.txt", 5,
             str "text/plain", 42⟩ := by
  have h := (upload_key_and_filename ⟨[], []⟩ (str "a.txt") (str "text/plain") 5
    (str "123e4567-e89b-12d3-a456-426614174000") (str "id-1") 42 5 (str "etag")
    (str "text/plain") .ok (by decide) (by decide) (by decide)).2
  exact h.trans (by rfl)

/-! ## C1: cross-store consistency across upload/delete sequences -/

theorem step_preserves_consistent (w : World) (op : Op)
    (hc : Consistent w) (hf : OpFresh w op) (hn : NoDanglingDelete op) :
    Consistent (stepW w op) := by
  obtain ⟨hb, hp⟩ := hc
  cases op with
  | upload rn fn ct sz tok nid now env =>
    obtain ⟨hkb, hkr⟩ := hf
    obtain ⟨po, co, ro⟩ := env
    cases rn with
    | true => exact ⟨hb, hp⟩
    | false =>
      cases po with
      | fail e => exact ⟨hb, hp⟩
      | ok rs retag rct =>
        cases co with
        | ok =>
          have hw : stepW w (.upload false fn ct sz tok nid now ⟨.ok rs retag rct, .ok, ro⟩)
              = ⟨insertBlob (joinDocuments (tok ++ goExt fn)) w.blobs,
                 w.rows ++ [⟨nid, tok ++ goExt fn, joinDocuments (tok ++ goExt fn),
                   rs, rct, now⟩]⟩ := by
            simp [stepW, documentService.Upload, storagePut, repoCreate]
          rw [hw]
          constructor
          · intro d hd
            rcases List.mem_append.mp hd with hdl | hdr
            · exact mem_insertBlob.mpr (Or.inr (hb d hdl))
            · rw [List.mem_singleton.mp hdr]
              exact mem_insertBlob.mpr (Or.inl rfl)
          · refine List.pairwise_append.mpr ⟨hp, by simp, ?_⟩
            intro a ha b hbm
            rw [List.mem_singleton.mp hbm]
            exact hkr a ha
        | fail e =>
          cases ro with
          | ok =>
            have hw : stepW w
                (.upload false fn ct sz tok nid now ⟨.ok rs retag rct, .fail e, .ok⟩)
                = ⟨(insertBlob (joinDocuments (tok ++ goExt fn)) w.blobs).filter
                     (fun k => k != joinDocuments (tok ++ goExt fn)), w.rows⟩ := by
              simp [stepW, documentService.Upload, storagePut, repoCreate, storageDelete]
            rw [hw]
            refine ⟨?_, hp⟩
            intro d hd
            exact mem_filter_ne.mpr ⟨mem_insertBlob.mpr (Or.inr (hb d hd)), hkr d hd⟩
          | fail de =>
            have hw : stepW w
                (.upload false fn ct sz tok nid now ⟨.ok rs retag rct, .fail e, .fail de⟩)
                = ⟨insertBlob (joinDocuments (tok ++ goExt fn)) w.blobs, w.rows⟩ := by
              simp [stepW, documentService.Upload, storagePut, repoCreate, storageDelete]
            rw [hw]
            refine ⟨?_, hp⟩
            intro d hd
            exact mem_insertBlob.mpr (Or.inr (hb d hd))
  | delete id env =>
    obtain ⟨fo, so, ro⟩ := env
    by_cases hid : id = []
    · subst hid
      exact ⟨hb, hp⟩
    · cases fo with
      | fail e =>
        have hw : stepW w (.delete id ⟨.fail e, so, ro⟩) = w := by
          cases he : errorsIsNoRows e <;>
            simp [stepW, documentService.Delete, repoFindByID, if_neg hid, he]
        rw [hw]; exact ⟨hb, hp⟩
      | fromTable =>
        cases hfind : w.rows.find? (fun d => d.id == id) with
        | none =>
          have hw : stepW w (.delete id ⟨.fromTable, so, ro⟩) = w := by
            simp [stepW, documentService.Delete, repoFindByID, if_neg hid, hfind,
              errorsIsNoRows]
          rw [hw]; exact ⟨hb, hp⟩
        | some doc =>
          have hdmem : doc ∈ w.rows := List.mem_of_find?_eq_some hfind
          have hpd := List.find?_some hfind
          have hdid : doc.id = id := beq_iff_eq.mp hpd
          cases so with
          | fail e =>
            have hw : stepW w (.delete id ⟨.fromTable, .fail e, ro⟩) = w := by
              simp [stepW, documentService.Delete, repoFindByID, storageDelete,
                if_neg hid, hfind]
            rw [hw]; exact ⟨hb, hp⟩
          | ok =>
            have hro : ro = .ok := hn rfl
            subst hro
            have hw : stepW w (.delete id ⟨.fromTable, .ok, .ok⟩)
                = ⟨w.blobs.filter (fun k => k != doc.storagePath),
                   w.rows.filter (fun d => d.id != id)⟩ := by
              simp [stepW, documentService.Delete, repoFindByID, storageDelete,
                repoDelete, if_neg hid, hfind]
            rw [hw]
            constructor
            · intro d hd
              obtain ⟨hdw, hdne⟩ := row_mem_filter_ne.mp hd
              have hdd : d ≠ doc := fun h => hdne (by rw [h, hdid])
              have hpath : d.storagePath ≠ doc.storagePath :=
                List.Pairwise.forall (fun _ _ h => h.symm) hp hdw hdmem hdd
              exact mem_filter_ne.mpr ⟨hb d hdw, hpath⟩
            · exact hp.sublist (List.filter_sublist w.rows)

/-- C1 (amended): over every sequence of Upload and Delete operations
with fresh storage keys, if additionally no Delete ever has its blob
deletion succeed while its metadata deletion fails, then every metadata
row's storage path keeps a committed, not-yet-removed blob (and rows keep
pairwise distinct storage paths).  The excluded Delete case — like the
rollback-failure case of Upload — is surfaced as an error to the caller,
but it does strand a metadata row, which is why the original claim needs
this extra exception. -/
theorem upload_delete_consistency (ops : List Op) :
    ∀ w : World, Consistent w → FreshAlong w ops →
      (∀ op ∈ ops, NoDanglingDelete op) → Consistent (execOps w ops) := by
  induction ops with
  | nil => intro w hc _ _; exact hc
  | cons op ops ih =>
    intro w hc hf hn
    exact ih (stepW w op)
      (step_preserves_consistent w op hc hf.1 (hn op (by simp)))
      hf.2 (fun o ho => hn o (by simp [ho]))

/-- Witness for C1 (amended): a fresh upload followed by its delete, from
the empty world, ends consistent. -/
theorem upload_delete_consistency_witness :
    Consistent (execOps ⟨[], []⟩
      [.upload false (str "a.txt") (str "text/plain") 5 (str "tok-1") (str "id-1") 42
         ⟨.ok 5 (str "etag") (str "text/plain"), .ok, .ok⟩,
       .delete (str "id-1") ⟨.fromTable, .ok, .ok⟩]) := by
  apply upload_delete_consistency
  · exact ⟨fun d hd => absurd hd (List.not_mem_nil d), List.Pairwise.nil⟩
  · exact ⟨⟨List.not_mem_nil _, fun d hd => absurd hd (List.not_mem_nil d)⟩,
      trivial, trivial⟩
  · intro op hop
    rcases List.mem_cons.mp hop with rfl | hop
    · trivial
    · rcases List.mem_singleton.mp hop with rfl
      intro _; rfl

/-- C1 counterexample (original claim): from a consistent world holding
one document, a single Delete whose blob deletion succeeds but whose
metadata deletion fails — a case the claim's sole Upload-rollback
exception does not cover — leaves the metadata row while its blob is
gone. -/
theorem row_without_blob_after_failed_delete :
    Consistent ⟨[str "documents/k.txt"],
      [⟨str "id1", str "k.txt", str "documents/k.txt", 5, str "t", 0⟩]⟩ ∧
    ¬ RowsBacked (execOps
        ⟨[str "documents/k.txt"],
         [⟨str "id1", str "k.txt", str "documents/k.txt", 5, str "t", 0⟩]⟩
        [.delete (str "id1") ⟨.fromTable, .ok, .fail (.external 0)⟩]) := by
  refine ⟨⟨?_, ?_⟩, ?_⟩
  · intro d hd
    rw [List.mem_singleton.mp hd]
    decide
  · simp [PathsDistinct]
  · intro hcontra
    have := hcontra ⟨str "id1", str "k.txt", str "documents/k.txt", 5, str "t", 0⟩
      (by decide)
    revert this
    decide
